import Mathlib

set_option maxHeartbeats 1000000

/-!
Shallow embedding of the aidea-server chat-group repository
(package repo, ChatGroupRepo over three tables: chat_group,
chat_group_member, chat_group_message).

The database is an explicit value: three lists of rows plus the next
auto-increment id for each table.  Nullable SQL columns are `Option`
(guregu null values; ValueOrZero is `Option.getD 0` / `Option.getD ""`).
A SQL equality filter on a nullable column matches only non-NULL values,
hence `r.col == some v`.  Writes can fail: each write consumes one bit
from an oracle list (`[]` means every write succeeds); a transaction whose
body fails rolls the database back to its initial value and returns the
error, mirroring eloquent.Transaction.
-/

def oracleNext : List Bool → Bool × List Bool
  | [] => (true, [])
  | b :: o => (b, o)

/-- Member is the repo-level member input struct (fields ID, ModelID, ModelName). -/
structure Member where
  ID : Int
  ModelID : String
  ModelName : String
  deriving DecidableEq

def ChatGroupMemberStatusNormal : Int := 1

def ChatGroupMemberStatusDeleted : Int := 2

def ChatGroupMessageStatusWaiting : Int := 0

def ChatGroupMessageStatusSucceed : Int := 1

def ChatGroupMessageStatusFailed : Int := 2

namespace model

/-- ChatGroupN is the nullable chat_group row (model.ChatGroupN). -/
structure ChatGroupN where
  Id : Option Int
  UserId : Option Int
  Name : Option String
  deriving DecidableEq

/-- ChatGroup is the non-null view of a chat_group row (model.ChatGroup). -/
structure ChatGroup where
  Id : Int
  UserId : Int
  Name : String
  deriving DecidableEq

def ChatGroupN.ToChatGroup (g : ChatGroupN) : ChatGroup :=
  ⟨g.Id.getD 0, g.UserId.getD 0, g.Name.getD ""⟩

/-- ChatGroupMemberN is the nullable chat_group_member row (model.ChatGroupMemberN). -/
structure ChatGroupMemberN where
  Id : Option Int
  GroupId : Option Int
  UserId : Option Int
  ModelId : Option String
  ModelName : Option String
  Status : Option Int
  deriving DecidableEq

/-- ChatGroupMember is the non-null view of a chat_group_member row. -/
structure ChatGroupMember where
  Id : Int
  GroupId : Int
  UserId : Int
  ModelId : String
  ModelName : String
  Status : Int
  deriving DecidableEq

def ChatGroupMemberN.ToChatGroupMember (r : ChatGroupMemberN) : ChatGroupMember :=
  ⟨r.Id.getD 0, r.GroupId.getD 0, r.UserId.getD 0, r.ModelId.getD "", r.ModelName.getD "", r.Status.getD 0⟩

/-- ChatGroupMessageN is the nullable chat_group_message row (model.ChatGroupMessageN). -/
structure ChatGroupMessageN where
  Id : Option Int
  GroupId : Option Int
  UserId : Option Int
  Message : Option String
  Role : Option Int
  TokenConsumed : Option Int
  QuotaConsumed : Option Int
  Pid : Option Int
  MemberId : Option Int
  Status : Option Int
  deriving DecidableEq

/-- ChatGroupMessage is the non-null view of a chat_group_message row. -/
structure ChatGroupMessage where
  Id : Int
  GroupId : Int
  UserId : Int
  Message : String
  Role : Int
  TokenConsumed : Int
  QuotaConsumed : Int
  Pid : Int
  MemberId : Int
  Status : Int
  deriving DecidableEq

def ChatGroupMessageN.ToChatGroupMessage (m : ChatGroupMessageN) : ChatGroupMessage :=
  ⟨m.Id.getD 0, m.GroupId.getD 0, m.UserId.getD 0, m.Message.getD "", m.Role.getD 0,
    m.TokenConsumed.getD 0, m.QuotaConsumed.getD 0, m.Pid.getD 0, m.MemberId.getD 0, m.Status.getD 0⟩

end model

/-- DB is the database state: the three tables plus each table's next auto-increment id. -/
structure DB where
  groups : List model.ChatGroupN
  members : List model.ChatGroupMemberN
  messages : List model.ChatGroupMessageN
  nextGroupId : Int
  nextMemberId : Int
  nextMessageId : Int
  deriving DecidableEq

/-- createMembersLoop is the member-insertion loop shared by CreateGroup and
AddMembersToGroup: each Create inserts a row with group_id, model_id,
model_name and status Normal — and no user_id, which is therefore NULL. -/
def createMembersLoop (gid : Int) : List Member → DB → List Bool → Except String (DB × List Bool)
  | [], tx, o => .ok (tx, o)
  | member :: rest, tx, o =>
    if (oracleNext o).1 then
      createMembersLoop gid rest
        { tx with
          members := tx.members ++
            [⟨some tx.nextMemberId, some gid, none, some member.ModelID, some member.ModelName,
              some ChatGroupMemberStatusNormal⟩],
          nextMemberId := tx.nextMemberId + 1 }
        (oracleNext o).2
    else .error "create group member failed"

/-- CreateGroup creates the group row then each member row inside one
transaction; on any failure the transaction rolls back and the error is
returned (the groupID local keeps whatever value it had). -/
def CreateGroup (db : DB) (userID : Int) (name : String) (members : List Member)
    (o : List Bool) : Int × Option String × DB :=
  if (oracleNext o).1 then
    match createMembersLoop db.nextGroupId members
        { db with
          groups := db.groups ++ [⟨some db.nextGroupId, some userID, some name⟩],
          nextGroupId := db.nextGroupId + 1 }
        (oracleNext o).2 with
    | .ok r => (db.nextGroupId, none, r.1)
    | .error e => (db.nextGroupId, some e, db)
  else (0, some "create group failed", db)

def groupSel (groupID userID : Int) (g : model.ChatGroupN) : Bool :=
  g.Id == some groupID && g.UserId == some userID

/-- UpdateGroup looks the group up by id and owner and saves a new name when it changed. -/
def UpdateGroup (db : DB) (groupID userID : Int) (name : String) (o : List Bool) :
    Option String × DB :=
  match db.groups.find? (groupSel groupID userID) with
  | none => (some "ErrNotFound", db)
  | some grp =>
    if name = grp.Name.getD "" then (none, db)
    else
      if (oracleNext o).1 then
        (none, { db with groups := db.groups.map (fun g => if g.Id = grp.Id then { grp with Name := some name } else g) })
      else (some "save group failed", db)

/-- toMapLookup models array.ToMap followed by map lookup: ToMap iterates
forward and a later item with the same key overwrites an earlier one, so
the lookup returns the last item whose key matches. -/
def toMapLookup {α : Type} (key : α → Int) (xs : List α) (k : Int) : Option α :=
  xs.reverse.find? (fun x => key x == k)

/-- memberSel is the current-member query of UpdateGroupMembers:
group_id = groupID AND status = Normal AND user_id = userID. -/
def memberSel (groupID userID : Int) (r : model.ChatGroupMemberN) : Bool :=
  r.GroupId == some groupID && r.Status == some ChatGroupMemberStatusNormal &&
    r.UserId == some userID

/-- ugmUpdateRow is the first loop body of UpdateGroupMembers: a current
member absent from the supplied map gets status Deleted, a present one gets
its ModelId and ModelName overwritten. -/
def ugmUpdateRow (members : List Member) (member : model.ChatGroupMemberN) :
    model.ChatGroupMemberN :=
  match toMapLookup (fun m => m.ID) members (member.Id.getD 0) with
  | none => { member with Status := some ChatGroupMemberStatusDeleted }
  | some modifyMember =>
    { member with ModelId := some modifyMember.ModelID, ModelName := some modifyMember.ModelName }

/-- ugmInsertRow is the row appended for a supplied member matching no
current member: id NULL, the given group and user, status Normal. -/
def ugmInsertRow (groupID userID : Int) (member : Member) : model.ChatGroupMemberN :=
  ⟨none, some groupID, some userID, some member.ModelID, some member.ModelName,
    some ChatGroupMemberStatusNormal⟩

/-- reconcileMembers is the in-memory diff of UpdateGroupMembers: mark
current members missing from the supplied list deleted, overwrite ModelId
and ModelName of those present, and append a fresh row for each supplied
member matching no current member. -/
def reconcileMembers (groupID userID : Int) (currentMembers : List model.ChatGroupMemberN)
    (members : List Member) : List model.ChatGroupMemberN :=
  currentMembers.map (ugmUpdateRow members)
  ++ members.filterMap fun member =>
    if toMapLookup (fun c => c.Id.getD 0) currentMembers member.ID = none then
      some (ugmInsertRow groupID userID member)
    else none

/-- memberSave is model.ChatGroupMemberN.Save: with an id it updates the row
with that id, with a NULL id it inserts a fresh row with the next id. -/
def memberSave (db : DB) (m : model.ChatGroupMemberN) : DB :=
  match m.Id with
  | some _ => { db with members := db.members.map (fun r => if r.Id = m.Id then m else r) }
  | none =>
    { db with
      members := db.members ++ [{ m with Id := some db.nextMemberId }],
      nextMemberId := db.nextMemberId + 1 }

/-- saveMembersLoop is the save loop of UpdateGroupMembers, one fallible Save per row. -/
def saveMembersLoop : List model.ChatGroupMemberN → DB → List Bool → Except String (DB × List Bool)
  | [], db, o => .ok (db, o)
  | m :: rest, db, o =>
    if (oracleNext o).1 then saveMembersLoop rest (memberSave db m) (oracleNext o).2
    else .error "save group member failed"

/-- UpdateGroupMembers queries the group's current Normal members of this
user, reconciles them against the supplied list, and saves every resulting
row, all inside one transaction. -/
def UpdateGroupMembers (db : DB) (groupID userID : Int) (members : List Member)
    (o : List Bool) : Option String × DB :=
  match saveMembersLoop
      (reconcileMembers groupID userID (db.members.filter (memberSel groupID userID)) members)
      db o with
  | .ok r => (none, r.1)
  | .error e => (some e, db)

/-- AddMembersToGroup inserts each supplied member with the same column set
as CreateGroup (again without user_id); the userID parameter is unused in
the source. -/
def AddMembersToGroup (db : DB) (groupID _userID : Int) (members : List Member)
    (o : List Bool) : Option String × DB :=
  match createMembersLoop groupID members db o with
  | .ok r => (none, r.1)
  | .error e => (some e, db)

/-- memberRemoveSel is the row filter of RemoveMembersFromGroup:
group_id = groupID AND user_id = userID AND status = Normal AND id IN memberIDs. -/
def memberRemoveSel (groupID userID : Int) (memberIDs : List Int)
    (r : model.ChatGroupMemberN) : Bool :=
  r.GroupId == some groupID && r.UserId == some userID &&
    r.Status == some ChatGroupMemberStatusNormal &&
    (match r.Id with
     | some i => memberIDs.contains i
     | none => false)

/-- RemoveMembersFromGroup returns immediately on an empty id list, else it
sets status Deleted on every matching row inside a transaction. -/
def RemoveMembersFromGroup (db : DB) (groupID userID : Int) (memberIDs : List Int)
    (o : List Bool) : Option String × DB :=
  if memberIDs.length = 0 then (none, db)
  else
    if (oracleNext o).1 then
      (none,
        { db with
          members := db.members.map fun r =>
            if memberRemoveSel groupID userID memberIDs r then
              { r with Status := some ChatGroupMemberStatusDeleted }
            else r })
    else (some "update members failed", db)

/-- repo.Group is the repo-level aggregate returned by GetGroup (named Group
in the source; qualified here because Lean's library already declares Group). -/
structure repo.Group where
  Group : model.ChatGroup
  Members : List model.ChatGroupMember
  deriving DecidableEq

/-- memberOfGroupSel is the member query of GetGroup: group_id = groupID AND
status = Normal — with no user_id condition. -/
def memberOfGroupSel (groupID : Int) (r : model.ChatGroupMemberN) : Bool :=
  r.GroupId == some groupID && r.Status == some ChatGroupMemberStatusNormal

/-- GetGroup reads the group row by id and owner and the Normal-status member
rows of the group, directly on the db handle (no transaction). -/
def GetGroup (db : DB) (groupID userID : Int) : Except String repo.Group :=
  match db.groups.find? (groupSel groupID userID) with
  | none => .error "ErrNotFound"
  | some grp =>
    .ok ⟨grp.ToChatGroup,
      (db.members.filter (memberOfGroupSel groupID)).map model.ChatGroupMemberN.ToChatGroupMember⟩

def insertDescBy {α : Type} (key : α → Int) (x : α) : List α → List α
  | [] => [x]
  | y :: ys => if key y < key x then x :: y :: ys else y :: insertDescBy key x ys

/-- sortDescBy models an ORDER BY key DESC clause. -/
def sortDescBy {α : Type} (key : α → Int) : List α → List α
  | [] => []
  | x :: xs => insertDescBy key x (sortDescBy key xs)

/-- Groups lists the user's groups ordered by id descending, at most limit
rows, directly on the db handle (no transaction). -/
def Groups (db : DB) (userID limit : Int) : List model.ChatGroup :=
  ((sortDescBy (fun g => g.Id.getD 0)
      (db.groups.filter (fun g => g.UserId == some userID))).take limit.toNat).map
    model.ChatGroupN.ToChatGroup

/-- ChatGroupMessage is the repo-level message input struct. -/
structure ChatGroupMessage where
  Message : String
  Role : Int
  TokenConsumed : Int
  QuotaConsumed : Int
  Pid : Int
  MemberId : Int
  Status : Int
  deriving DecidableEq

/-- AddChatMessage saves a new message row inside a transaction, carrying
group_id, user_id and all seven input fields, and returns the new id. -/
def AddChatMessage (db : DB) (groupID userID : Int) (msg : ChatGroupMessage)
    (o : List Bool) : Int × Option String × DB :=
  if (oracleNext o).1 then
    (db.nextMessageId, none,
      { db with
        messages := db.messages ++
          [⟨some db.nextMessageId, some groupID, some userID, some msg.Message, some msg.Role,
            some msg.TokenConsumed, some msg.QuotaConsumed, some msg.Pid, some msg.MemberId,
            some msg.Status⟩],
        nextMessageId := db.nextMessageId + 1 })
  else (0, some "save chat message failed", db)

/-- chatMessageSel is the row filter shared by GetChatMessage, DeleteChatMessage
and UpdateChatMessage: group_id = groupID AND user_id = userID AND id = messageID. -/
def chatMessageSel (groupID userID messageID : Int) (r : model.ChatGroupMessageN) : Bool :=
  r.GroupId == some groupID && r.UserId == some userID && r.Id == some messageID

/-- GetChatMessage reads one message row by group, user and id, directly on
the db handle (no transaction). -/
def GetChatMessage (db : DB) (groupID userID messageID : Int) :
    Except String model.ChatGroupMessage :=
  match db.messages.find? (chatMessageSel groupID userID messageID) with
  | none => .error "ErrNotFound"
  | some m => .ok m.ToChatGroupMessage

/-- GetChatMessages lists a group's messages ordered by id descending, at most
limit rows, directly on the db handle (no transaction). -/
def GetChatMessages (db : DB) (groupID limit : Int) : List model.ChatGroupMessage :=
  ((sortDescBy (fun m => m.Id.getD 0)
      (db.messages.filter (fun m => m.GroupId == some groupID))).take limit.toNat).map
    model.ChatGroupMessageN.ToChatGroupMessage

/-- DeleteChatMessage hard-deletes the matching message rows inside a transaction. -/
def DeleteChatMessage (db : DB) (groupID userID messageID : Int) (o : List Bool) :
    Option String × DB :=
  if (oracleNext o).1 then
    (none, { db with messages := db.messages.filter (fun r => !chatMessageSel groupID userID messageID r) })
  else (some "delete chat message failed", db)

/-- ChatGroupMessageUpdate is the repo-level message update struct. -/
structure ChatGroupMessageUpdate where
  Message : String
  TokenConsumed : Int
  QuotaConsumed : Int
  Status : Int
  deriving DecidableEq

/-- UpdateChatMessage overwrites message, token_consumed, quota_consumed and
status of the matching rows inside a transaction. -/
def UpdateChatMessage (db : DB) (groupID userID messageID : Int)
    (msg : ChatGroupMessageUpdate) (o : List Bool) : Option String × DB :=
  if (oracleNext o).1 then
    (none,
      { db with
        messages := db.messages.map fun r =>
          if chatMessageSel groupID userID messageID r then
            { r with
              Message := some msg.Message
              TokenConsumed := some msg.TokenConsumed
              QuotaConsumed := some msg.QuotaConsumed
              Status := some msg.Status }
          else r })
  else (some "update chat message failed", db)

/-- idBelow states that a nullable id is present and below the next auto-increment value. -/
def idBelow (o : Option Int) (n : Int) : Bool :=
  match o with
  | some i => decide (i < n)
  | none => false

/-- DB.wf is the database well-formedness every real SQL state satisfies:
every row has an id, ids are unique per table, and ids are below the
table's next auto-increment value. -/
def DB.wf (db : DB) : Prop :=
  (∀ r ∈ db.members, idBelow r.Id db.nextMemberId = true) ∧
  (db.members.filterMap model.ChatGroupMemberN.Id).Nodup ∧
  (∀ r ∈ db.messages, idBelow r.Id db.nextMessageId = true) ∧
  (db.messages.filterMap model.ChatGroupMessageN.Id).Nodup ∧
  (∀ g ∈ db.groups, idBelow g.Id db.nextGroupId = true)

instance (db : DB) : Decidable db.wf := by
  unfold DB.wf
  infer_instance

/-- findMem looks a member row up by id. -/
def findMem (rows : List model.ChatGroupMemberN) (i : Int) : Option model.ChatGroupMemberN :=
  rows.find? (fun r => r.Id == some i)

/-- RepoOp enumerates the twelve exported operations of ChatGroupRepo. -/
inductive RepoOp where
  | createGroup
  | updateGroup
  | updateGroupMembers
  | addMembersToGroup
  | removeMembersFromGroup
  | getGroup
  | groups
  | addChatMessage
  | getChatMessage
  | getChatMessages
  | deleteChatMessage
  | updateChatMessage
  deriving DecidableEq

/-- usesTransaction records, operation by operation, whether the source wraps
the body in eloquent.Transaction: the eight mutating operations do, while
GetGroup, Groups, GetChatMessage and GetChatMessages query repo.db directly. -/
def usesTransaction : RepoOp → Bool
  | .getGroup => false
  | .groups => false
  | .getChatMessage => false
  | .getChatMessages => false
  | _ => true

/-- RepoCall is one invocation of an operation with its arguments. -/
inductive RepoCall where
  | createGroup (userID : Int) (name : String) (members : List Member)
  | updateGroup (groupID userID : Int) (name : String)
  | updateGroupMembers (groupID userID : Int) (members : List Member)
  | addMembersToGroup (groupID userID : Int) (members : List Member)
  | removeMembersFromGroup (groupID userID : Int) (memberIDs : List Int)
  | getGroup (groupID userID : Int)
  | groups (userID limit : Int)
  | addChatMessage (groupID userID : Int) (msg : ChatGroupMessage)
  | getChatMessage (groupID userID messageID : Int)
  | getChatMessages (groupID limit : Int)
  | deleteChatMessage (groupID userID messageID : Int)
  | updateChatMessage (groupID userID messageID : Int) (msg : ChatGroupMessageUpdate)
  deriving DecidableEq

/-- applyCall is the database state after one repository call (the read
operations run directly on the handle and change nothing). -/
def applyCall : RepoCall → DB → List Bool → DB
  | .createGroup uid name mems, db, o => (CreateGroup db uid name mems o).2.2
  | .updateGroup gid uid name, db, o => (UpdateGroup db gid uid name o).2
  | .updateGroupMembers gid uid mems, db, o => (UpdateGroupMembers db gid uid mems o).2
  | .addMembersToGroup gid uid mems, db, o => (AddMembersToGroup db gid uid mems o).2
  | .removeMembersFromGroup gid uid ids, db, o => (RemoveMembersFromGroup db gid uid ids o).2
  | .getGroup _ _, db, _ => db
  | .groups _ _, db, _ => db
  | .addChatMessage gid uid msg, db, o => (AddChatMessage db gid uid msg o).2.2
  | .getChatMessage _ _ _, db, _ => db
  | .getChatMessages _ _, db, _ => db
  | .deleteChatMessage gid uid mid, db, o => (DeleteChatMessage db gid uid mid o).2
  | .updateChatMessage gid uid mid msg, db, o => (UpdateChatMessage db gid uid mid msg o).2

/-- saveMembersAll is the effect of the save loop when every save succeeds. -/
def saveMembersAll : List model.ChatGroupMemberN → DB → DB
  | [], db => db
  | m :: rest, db => saveMembersAll rest (memberSave db m)

/-- newMemberRows is the closed form of the rows createMembersLoop inserts,
with consecutive ids starting at the given next id and user_id NULL. -/
def newMemberRows (gid : Int) : Int → List Member → List model.ChatGroupMemberN
  | _, [] => []
  | nid, m :: rest =>
    ⟨some nid, some gid, none, some m.ModelID, some m.ModelName, some ChatGroupMemberStatusNormal⟩
      :: newMemberRows gid (nid + 1) rest

/-- ugmNewRows is the closed form of the rows UpdateGroupMembers inserts when
every supplied member is new, with consecutive ids and the user filled in. -/
def ugmNewRows (groupID userID : Int) : Int → List Member → List model.ChatGroupMemberN
  | _, [] => []
  | nid, m :: rest =>
    ⟨some nid, some groupID, some userID, some m.ModelID, some m.ModelName,
      some ChatGroupMemberStatusNormal⟩
      :: ugmNewRows groupID userID (nid + 1) rest

/-- rowsIdBelow states every non-NULL row id in the list is below n. -/
def rowsIdBelow (rows : List model.ChatGroupMemberN) (n : Int) : Prop :=
  ∀ r ∈ rows, ∀ j, r.Id = some j → j < n

theorem saveMembersLoop_nil_oracle (L : List model.ChatGroupMemberN) (db : DB) :
    saveMembersLoop L db [] = .ok (saveMembersAll L db, []) := by
  induction L generalizing db with
  | nil => rfl
  | cons m rest ih => simp [saveMembersLoop, oracleNext, saveMembersAll, ih]

theorem saveMembersAll_append (L1 L2 : List model.ChatGroupMemberN) (db : DB) :
    saveMembersAll (L1 ++ L2) db = saveMembersAll L2 (saveMembersAll L1 db) := by
  induction L1 generalizing db with
  | nil => rfl
  | cons m rest ih => simp [saveMembersAll, ih]

theorem memberSave_nextMemberId_le (db : DB) (m : model.ChatGroupMemberN) :
    db.nextMemberId ≤ (memberSave db m).nextMemberId := by
  cases h : m.Id <;> simp [memberSave, h]

theorem saveMembersAll_nextMemberId_le (L : List model.ChatGroupMemberN) (db : DB) :
    db.nextMemberId ≤ (saveMembersAll L db).nextMemberId := by
  induction L generalizing db with
  | nil => exact le_refl _
  | cons m rest ih =>
    exact le_trans (memberSave_nextMemberId_le db m) (ih (memberSave db m))

theorem rowsIdBelow_mono {rows : List model.ChatGroupMemberN} {n n' : Int}
    (hle : n ≤ n') (h : rowsIdBelow rows n) : rowsIdBelow rows n' :=
  fun r hr j hj => lt_of_lt_of_le (h r hr j hj) hle

theorem memberSave_rowsIdBelow {db : DB} {m : model.ChatGroupMemberN}
    (hrows : rowsIdBelow db.members db.nextMemberId)
    (hm : ∀ j, m.Id = some j → j < db.nextMemberId) :
    rowsIdBelow (memberSave db m).members (memberSave db m).nextMemberId := by
  cases h : m.Id with
  | some j =>
    simp only [memberSave, h]
    intro r hr k hk
    rcases List.mem_map.mp hr with ⟨a, ha, rfl⟩
    by_cases hcase : a.Id = some j
    · rw [if_pos hcase] at hk
      exact hm k hk
    · rw [if_neg hcase] at hk
      exact hrows a ha k hk
  | none =>
    simp only [memberSave, h]
    intro r hr k hk
    rcases List.mem_append.mp hr with hold | hnew
    · exact lt_trans (hrows r hold k hk) (by omega)
    · simp only [List.mem_singleton] at hnew
      subst hnew
      have hk' : some db.nextMemberId = some k := hk
      cases hk'
      omega

theorem saveMembersAll_rowsIdBelow {L : List model.ChatGroupMemberN} {db : DB}
    (hrows : rowsIdBelow db.members db.nextMemberId)
    (hL : rowsIdBelow L db.nextMemberId) :
    rowsIdBelow (saveMembersAll L db).members (saveMembersAll L db).nextMemberId := by
  induction L generalizing db with
  | nil => exact hrows
  | cons m rest ih =>
    have h1 := memberSave_rowsIdBelow hrows (hL m (List.mem_cons_self _ _))
    have hle := memberSave_nextMemberId_le db m
    exact ih h1 (rowsIdBelow_mono hle fun u hu => hL u (List.mem_cons_of_mem _ hu))

theorem findMem_map_ne {rows : List model.ChatGroupMemberN} {u : model.ChatGroupMemberN} {i : Int}
    (hne : u.Id ≠ some i) :
    findMem (rows.map fun r => if r.Id = u.Id then u else r) i = findMem rows i := by
  induction rows with
  | nil => rfl
  | cons r rest ih =>
    by_cases hr : r.Id = u.Id
    · have h1 : (u.Id == some i) = false := beq_eq_false_iff_ne.mpr hne
      have h2 : (r.Id == some i) = false := beq_eq_false_iff_ne.mpr (by rw [hr]; exact hne)
      simp only [findMem, List.map_cons, List.find?_cons, if_pos hr, h1, h2] at ih ⊢
      exact ih
    · cases hpr : (r.Id == some i) with
      | true => simp [findMem, List.find?_cons, if_neg hr, hpr]
      | false => simpa [findMem, List.find?_cons, if_neg hr, hpr] using ih

theorem findMem_map_hit {rows : List model.ChatGroupMemberN} {u r0 : model.ChatGroupMemberN} {i : Int}
    (hu : u.Id = some i) (hfind : findMem rows i = some r0) :
    findMem (rows.map fun r => if r.Id = u.Id then u else r) i = some u := by
  induction rows with
  | nil => simp [findMem] at hfind
  | cons r rest ih =>
    cases hpr : (r.Id == some i) with
    | true =>
      have hr : r.Id = some i := by simpa using hpr
      have hru : r.Id = u.Id := by rw [hr, hu]
      have hui : (u.Id == some i) = true := by simp [hu]
      simp [findMem, List.find?_cons, if_pos hru, hui]
    | false =>
      have hru : r.Id ≠ u.Id := by
        intro hcon
        rw [hcon, hu] at hpr
        simp at hpr
      have hfind' : findMem rest i = some r0 := by
        simpa [findMem, List.find?_cons, hpr] using hfind
      simpa [findMem, List.find?_cons, if_neg hru, hpr] using ih hfind'

theorem findMem_append_ne {rows : List model.ChatGroupMemberN} {x : model.ChatGroupMemberN} {i : Int}
    (hx : x.Id ≠ some i) : findMem (rows ++ [x]) i = findMem rows i := by
  have h1 : (x.Id == some i) = false := beq_eq_false_iff_ne.mpr hx
  simp [findMem, List.find?_append, h1]

theorem saveMembersAll_findMem_stable {L : List model.ChatGroupMemberN} {db : DB} {i : Int}
    (hrows : rowsIdBelow db.members db.nextMemberId)
    (hL : rowsIdBelow L db.nextMemberId)
    (hi : ∀ u ∈ L, u.Id ≠ some i)
    (hlt : i < db.nextMemberId) :
    findMem (saveMembersAll L db).members i = findMem db.members i := by
  induction L generalizing db with
  | nil => rfl
  | cons m rest ih =>
    have hm := hi m (List.mem_cons_self _ _)
    have hrows' : rowsIdBelow (memberSave db m).members (memberSave db m).nextMemberId :=
      memberSave_rowsIdBelow hrows (hL m (List.mem_cons_self _ _))
    have hrest : rowsIdBelow rest (memberSave db m).nextMemberId :=
      rowsIdBelow_mono (memberSave_nextMemberId_le db m)
        (fun u hu => hL u (List.mem_cons_of_mem _ hu))
    have hirest : ∀ u ∈ rest, u.Id ≠ some i := fun u hu => hi u (List.mem_cons_of_mem _ hu)
    have hlt' : i < (memberSave db m).nextMemberId :=
      lt_of_lt_of_le hlt (memberSave_nextMemberId_le db m)
    have step := ih hrows' hrest hirest hlt'
    rw [saveMembersAll, step]
    cases h : m.Id with
    | some j =>
      have : (memberSave db m).members = db.members.map (fun r => if r.Id = m.Id then m else r) := by
        simp [memberSave, h]
      rw [this, findMem_map_ne hm]
    | none =>
      have : (memberSave db m).members = db.members ++ [{ m with Id := some db.nextMemberId }] := by
        simp [memberSave, h]
      rw [this, findMem_append_ne]
      intro hcon
      have : db.nextMemberId = i := by
        have h2 : some db.nextMemberId = some i := hcon
        cases h2
        rfl
      omega

theorem saveMembersAll_mem_preserve {L : List model.ChatGroupMemberN} {db : DB}
    {r : model.ChatGroupMemberN}
    (hr : r ∈ db.members) (hL : ∀ u ∈ L, u.Id ≠ r.Id) :
    r ∈ (saveMembersAll L db).members := by
  induction L generalizing db with
  | nil => exact hr
  | cons m rest ih =>
    have hm := hL m (List.mem_cons_self _ _)
    rw [saveMembersAll]
    refine ih ?_ (fun u hu => hL u (List.mem_cons_of_mem _ hu))
    cases h : m.Id with
    | some j =>
      simp only [memberSave, h]
      refine List.mem_map.mpr ⟨r, hr, ?_⟩
      rw [if_neg]
      intro hcon
      exact hm (by rw [h, hcon])
    | none =>
      simp only [memberSave, h]
      exact List.mem_append.mpr (Or.inl hr)

theorem saveMembersAll_id_preserved {L : List model.ChatGroupMemberN} {db : DB}
    {r : model.ChatGroupMemberN} (hr : r ∈ db.members) :
    ∃ s ∈ (saveMembersAll L db).members, s.Id = r.Id := by
  induction L generalizing db r with
  | nil => exact ⟨r, hr, rfl⟩
  | cons m rest ih =>
    rw [saveMembersAll]
    cases h : m.Id with
    | some j =>
      by_cases hcase : r.Id = some j
      · have hmem : m ∈ (memberSave db m).members := by
          simp only [memberSave, h]
          refine List.mem_map.mpr ⟨r, hr, ?_⟩
          rw [if_pos hcase]
        rcases ih hmem with ⟨s, hs, hsid⟩
        exact ⟨s, hs, by rw [hsid, h, hcase]⟩
      · have hmem : r ∈ (memberSave db m).members := by
          simp only [memberSave, h]
          refine List.mem_map.mpr ⟨r, hr, ?_⟩
          rw [if_neg hcase]
        exact ih hmem
    | none =>
      have hmem : r ∈ (memberSave db m).members := by
        simp only [memberSave, h]
        exact List.mem_append.mpr (Or.inl hr)
      exact ih hmem

theorem createMembersLoop_ok {gid : Int} {mems : List Member} {tx tx' : DB}
    {o o' : List Bool}
    (h : createMembersLoop gid mems tx o = .ok (tx', o')) :
    tx'.members = tx.members ++ newMemberRows gid tx.nextMemberId mems ∧
    tx'.nextMemberId = tx.nextMemberId + mems.length ∧
    tx'.groups = tx.groups ∧ tx'.messages = tx.messages ∧
    tx'.nextGroupId = tx.nextGroupId ∧ tx'.nextMessageId = tx.nextMessageId := by
  induction mems generalizing tx o with
  | nil =>
    rw [createMembersLoop] at h
    cases h
    simp [newMemberRows]
  | cons m rest ih =>
    rw [createMembersLoop] at h
    by_cases hb : (oracleNext o).1
    · rw [if_pos hb] at h
      have step := ih h
      refine ⟨?_, ?_, ?_, ?_, ?_, ?_⟩
      · rw [step.1]
        simp [newMemberRows, List.append_assoc]
      · rw [step.2.1]
        simp only [List.length_cons]
        push_cast
        ring
      · exact step.2.2.1
      · exact step.2.2.2.1
      · exact step.2.2.2.2.1
      · exact step.2.2.2.2.2
    · rw [if_neg hb] at h
      cases h

theorem saveMembersAll_inserts (gid uid : Int) (mems : List Member) (db : DB) :
    (saveMembersAll (mems.map (ugmInsertRow gid uid)) db).members
        = db.members ++ ugmNewRows gid uid db.nextMemberId mems ∧
    (saveMembersAll (mems.map (ugmInsertRow gid uid)) db).nextMemberId
        = db.nextMemberId + mems.length := by
  induction mems generalizing db with
  | nil => simp [saveMembersAll, ugmNewRows]
  | cons m rest ih =>
    simp only [List.map_cons, saveMembersAll]
    have hsave : memberSave db (ugmInsertRow gid uid m) =
        { db with
          members := db.members ++
            [⟨some db.nextMemberId, some gid, some uid, some m.ModelID, some m.ModelName,
              some ChatGroupMemberStatusNormal⟩],
          nextMemberId := db.nextMemberId + 1 } := by
      simp [memberSave, ugmInsertRow]
    rw [hsave]
    have step := ih { db with
          members := db.members ++
            [⟨some db.nextMemberId, some gid, some uid, some m.ModelID, some m.ModelName,
              some ChatGroupMemberStatusNormal⟩],
          nextMemberId := db.nextMemberId + 1 }
    refine ⟨?_, ?_⟩
    · rw [step.1]
      simp [ugmNewRows, List.append_assoc]
    · rw [step.2]
      simp only [List.length_cons]
      push_cast
      ring

theorem toMapLookup_eq_none {α : Type} {key : α → Int} {xs : List α} {k : Int} :
    toMapLookup key xs k = none ↔ ∀ x ∈ xs, key x ≠ k := by
  unfold toMapLookup
  rw [List.find?_eq_none]
  constructor
  · intro h x hx
    have := h x (List.mem_reverse.mpr hx)
    simpa using this
  · intro h x hx
    simpa using h x (List.mem_reverse.mp hx)

theorem find?_key_nodup {α : Type} {key : α → Int} {l : List α} {x : α} {k : Int}
    (hnd : (l.map key).Nodup) (hx : x ∈ l) (hk : key x = k) :
    l.find? (fun y => key y == k) = some x := by
  induction l with
  | nil => cases hx
  | cons y ys ih =>
    rcases List.mem_cons.mp hx with rfl | hmem
    · simp [List.find?_cons, hk]
    · have hky : key y ≠ k := by
        intro hcon
        have hin : key x ∈ ys.map key := List.mem_map.mpr ⟨x, hmem, rfl⟩
        rw [hk, ← hcon] at hin
        exact (List.nodup_cons.mp hnd).1 hin
      have h1 : (key y == k) = false := beq_eq_false_iff_ne.mpr hky
      simp only [List.find?_cons, h1]
      exact ih (List.nodup_cons.mp hnd).2 hmem

theorem toMapLookup_of_nodup {α : Type} {key : α → Int} {xs : List α} {x : α} {k : Int}
    (hnd : (xs.map key).Nodup) (hx : x ∈ xs) (hk : key x = k) :
    toMapLookup key xs k = some x := by
  unfold toMapLookup
  refine find?_key_nodup ?_ (List.mem_reverse.mpr hx) hk
  rw [List.map_reverse]
  exact List.nodup_reverse.mpr hnd

theorem findMem_of_mem_nodup {rows : List model.ChatGroupMemberN}
    {r : model.ChatGroupMemberN} {i : Int}
    (hnd : (rows.filterMap model.ChatGroupMemberN.Id).Nodup)
    (hr : r ∈ rows) (hid : r.Id = some i) :
    findMem rows i = some r := by
  induction rows with
  | nil => cases hr
  | cons y ys ih =>
    rcases List.mem_cons.mp hr with rfl | hmem
    · simp [findMem, List.find?_cons, hid]
    · cases hy : y.Id with
      | some jy =>
        have hswap : (y :: ys).filterMap model.ChatGroupMemberN.Id =
            jy :: ys.filterMap model.ChatGroupMemberN.Id := by
          simp [List.filterMap_cons, hy]
        rw [hswap] at hnd
        have hnotin := (List.nodup_cons.mp hnd).1
        have hyne : y.Id ≠ some i := by
          intro hcon
          rw [hy] at hcon
          cases hcon
          exact hnotin (List.mem_filterMap.mpr ⟨r, hmem, hid⟩)
        have h1 : (y.Id == some i) = false := beq_eq_false_iff_ne.mpr hyne
        simp only [findMem, List.find?_cons, h1]
        exact ih (List.nodup_cons.mp hnd).2 hmem
      | none =>
        have hswap : (y :: ys).filterMap model.ChatGroupMemberN.Id =
            ys.filterMap model.ChatGroupMemberN.Id := by
          simp [List.filterMap_cons, hy]
        rw [hswap] at hnd
        have h1 : (y.Id == some i) = false := by rw [hy]; rfl
        simp only [findMem, List.find?_cons, h1]
        exact ih hnd hmem

theorem wf_members_below {db : DB} (hwf : db.wf) :
    rowsIdBelow db.members db.nextMemberId := by
  intro r hr j hj
  have h := hwf.1 r hr
  rw [hj] at h
  simpa [idBelow] using h

theorem wf_members_isSome {db : DB} (hwf : db.wf) :
    ∀ r ∈ db.members, r.Id ≠ none := by
  intro r hr hcon
  have h := hwf.1 r hr
  rw [hcon] at h
  simp [idBelow] at h

theorem wf_messages_below {db : DB} (hwf : db.wf) :
    ∀ r ∈ db.messages, ∀ j, r.Id = some j → j < db.nextMessageId := by
  intro r hr j hj
  have h := hwf.2.2.1 r hr
  rw [hj] at h
  simpa [idBelow] using h

theorem saveMembersLoop_ok_eq {L : List model.ChatGroupMemberN} {db : DB} {o : List Bool}
    {db2 : DB} {o2 : List Bool}
    (h : saveMembersLoop L db o = .ok (db2, o2)) : db2 = saveMembersAll L db := by
  induction L generalizing db o with
  | nil =>
    rw [saveMembersLoop] at h
    cases h
    rfl
  | cons m rest ih =>
    rw [saveMembersLoop] at h
    by_cases hb : (oracleNext o).1
    · rw [if_pos hb] at h
      exact ih h
    · rw [if_neg hb] at h
      cases h

theorem newMemberRows_userId_none (gid : Int) (nid : Int) (mems : List Member) :
    ∀ r ∈ newMemberRows gid nid mems, r.UserId = none := by
  induction mems generalizing nid with
  | nil => intro r hr; cases hr
  | cons m rest ih =>
    intro r hr
    rcases List.mem_cons.mp hr with rfl | hmem
    · rfl
    · exact ih (nid + 1) r hmem

theorem mem_id_unique {rows : List model.ChatGroupMemberN}
    {r t : model.ChatGroupMemberN} {i : Int}
    (hnd : (rows.filterMap model.ChatGroupMemberN.Id).Nodup)
    (hr : r ∈ rows) (ht : t ∈ rows) (hri : r.Id = some i) (hti : t.Id = some i) : r = t := by
  have h1 := findMem_of_mem_nodup hnd hr hri
  have h2 := findMem_of_mem_nodup hnd ht hti
  rw [h1] at h2
  cases h2
  rfl

/-- C10: RemoveMembersFromGroup called with an empty memberIDs slice returns
nil immediately, performs no database work and leaves the state unchanged. -/
theorem removeMembers_empty_noop :
    ∀ (db : DB) (groupID userID : Int) (o : List Bool),
      RemoveMembersFromGroup db groupID userID [] o = (none, db) := by
  intro db gid uid o
  rfl

/-- C7: the reconciliation of UpdateGroupMembers is a bounded single-pass
set-diff: it is a total function of the two in-memory collections (one map
over the current members followed by one filter over the supplied members)
and its output size is at most current plus supplied. -/
theorem reconcileMembers_bounded :
    ∀ (groupID userID : Int) (cur : List model.ChatGroupMemberN) (mems : List Member),
      (reconcileMembers groupID userID cur mems).length ≤ cur.length + mems.length := by
  intro gid uid cur mems
  unfold reconcileMembers
  rw [List.length_append, List.length_map]
  exact Nat.add_le_add_left (List.length_filterMap_le _ _) _

/-- C2 counterexample: GetGroup does not execute inside a transaction — it
queries the db handle directly — so the claim that every exported operation
runs within a transaction is false. -/
theorem usesTransaction_counterexample :
    ¬ (∀ op : RepoOp, usesTransaction op = true) := by
  intro h
  have hg := h RepoOp.getGroup
  simp [usesTransaction] at hg

/-- C2 amended: exactly the eight mutating operations run inside
eloquent.Transaction, while the four read operations (GetGroup, Groups,
GetChatMessage, GetChatMessages) query the db handle directly. -/
theorem usesTransaction_amended :
    ∀ op : RepoOp,
      usesTransaction op =
        !([RepoOp.getGroup, RepoOp.groups, RepoOp.getChatMessage,
           RepoOp.getChatMessages].contains op) := by
  intro op
  cases op <;> rfl

/-- C3: CreateGroup is atomic — whenever it returns an error (creating the
group row or any member row failed), the single enclosing transaction has
rolled back and the database is unchanged. -/
theorem createGroup_rollback_on_failure
    (db : DB) (userID : Int) (name : String) (mems : List Member) (o : List Bool)
    (gid : Int) (e : String) (db' : DB)
    (h : CreateGroup db userID name mems o = (gid, some e, db')) :
    db' = db := by
  rw [CreateGroup] at h
  by_cases hb : (oracleNext o).1
  · rw [if_pos hb] at h
    split at h
    · simp at h
    · simp only [Prod.mk.injEq] at h
      exact h.2.2.symm
  · rw [if_neg hb] at h
    simp only [Prod.mk.injEq] at h
    exact h.2.2.symm

/-- Witness for C3: a concrete failing CreateGroup run leaves the database unchanged. -/
theorem createGroup_rollback_on_failure_witness :
    (CreateGroup ⟨[], [], [], 0, 0, 0⟩ 7 "g" [] [false]).2.2 = ⟨[], [], [], 0, 0, 0⟩ :=
  createGroup_rollback_on_failure ⟨[], [], [], 0, 0, 0⟩ 7 "g" [] [false] 0
    "create group failed" _ rfl

/-- C4: a successful CreateGroup creates a chat-group row with owner userID
and the given name, creates exactly one member row per supplied member in
order — carrying the new group's id, the member's ModelID and ModelName,
and status Normal — and returns the new group's id. -/
theorem createGroup_success_spec
    (db : DB) (userID : Int) (name : String) (mems : List Member) (o : List Bool)
    (gid : Int) (db' : DB)
    (h : CreateGroup db userID name mems o = (gid, none, db')) :
    gid = db.nextGroupId ∧
    db'.groups = db.groups ++ [⟨some gid, some userID, some name⟩] ∧
    db'.members = db.members ++ newMemberRows gid db.nextMemberId mems := by
  rw [CreateGroup] at h
  by_cases hb : (oracleNext o).1
  · rw [if_pos hb] at h
    split at h
    · rename_i r hloop
      have step := createMembersLoop_ok hloop
      simp only [Prod.mk.injEq] at h
      obtain ⟨hgid, _, hdb⟩ := h
      subst hgid
      subst hdb
      refine ⟨rfl, ?_, ?_⟩
      · rw [step.2.2.1]
      · rw [step.1]
    · simp at h
  · rw [if_neg hb] at h
    simp at h

/-- Witness for C4 at a concrete successful run. -/
theorem createGroup_success_spec_witness :
    (5 : Int) = (⟨[], [], [], 5, 3, 0⟩ : DB).nextGroupId ∧
    (⟨[⟨some 5, some 7, some "g"⟩],
      [⟨some 3, some 5, none, some "m", some "M", some 1⟩], [], 6, 4, 0⟩ : DB).groups =
      (⟨[], [], [], 5, 3, 0⟩ : DB).groups ++ [⟨some 5, some 7, some "g"⟩] ∧
    (⟨[⟨some 5, some 7, some "g"⟩],
      [⟨some 3, some 5, none, some "m", some "M", some 1⟩], [], 6, 4, 0⟩ : DB).members =
      (⟨[], [], [], 5, 3, 0⟩ : DB).members ++
        newMemberRows 5 (⟨[], [], [], 5, 3, 0⟩ : DB).nextMemberId [⟨0, "m", "M"⟩] :=
  createGroup_success_spec ⟨[], [], [], 5, 3, 0⟩ 7 "g" [⟨0, "m", "M"⟩] [] 5
    ⟨[⟨some 5, some 7, some "g"⟩],
      [⟨some 3, some 5, none, some "m", some "M", some 1⟩], [], 6, 4, 0⟩ rfl

theorem filterMap_insert_all (gid uid : Int) (mems : List Member) :
    (mems.filterMap fun member =>
      if toMapLookup (fun c => c.Id.getD 0) ([] : List model.ChatGroupMemberN) member.ID = none
      then some (ugmInsertRow gid uid member) else none) = mems.map (ugmInsertRow gid uid) := by
  induction mems with
  | nil => rfl
  | cons m rest ih =>
    simp [List.filterMap_cons, toMapLookup] at ih ⊢
    exact ih

/-- C8: member rows created by CreateGroup and by AddMembersToGroup carry no
user_id (the insert omits the column, leaving it NULL), while the member
queries of UpdateGroupMembers and RemoveMembersFromGroup filter on
user_id = userID and therefore never match such rows; consequently, over a
table whose member rows all lack user_id, UpdateGroupMembers retrieves no
current member, re-inserts every supplied member as a new row and marks no
row deleted. -/
theorem membersWithoutUserId_spec :
    (∀ (db : DB) (userID : Int) (name : String) (mems : List Member) (o : List Bool)
        (gid : Int) (e : Option String) (db' : DB),
        CreateGroup db userID name mems o = (gid, e, db') →
        ∀ r ∈ db'.members, r ∉ db.members → r.UserId = none) ∧
    (∀ (db : DB) (groupID userID : Int) (mems : List Member) (o : List Bool)
        (e : Option String) (db' : DB),
        AddMembersToGroup db groupID userID mems o = (e, db') →
        ∀ r ∈ db'.members, r ∉ db.members → r.UserId = none) ∧
    (∀ (groupID userID : Int) (ids : List Int) (r : model.ChatGroupMemberN),
        r.UserId = none →
        memberSel groupID userID r = false ∧ memberRemoveSel groupID userID ids r = false) ∧
    (∀ (db : DB) (groupID userID : Int) (mems : List Member) (db' : DB),
        (∀ r ∈ db.members, r.UserId = none) →
        UpdateGroupMembers db groupID userID mems [] = (none, db') →
        db'.members = db.members ++ ugmNewRows groupID userID db.nextMemberId mems) := by
  refine ⟨?_, ?_, ?_, ?_⟩
  · intro db uid name mems o gid e db' h r hr hnotin
    rw [CreateGroup] at h
    by_cases hb : (oracleNext o).1
    · rw [if_pos hb] at h
      split at h
      · rename_i rr hloop
        have step := createMembersLoop_ok hloop
        simp only [Prod.mk.injEq] at h
        obtain ⟨_, _, hdb⟩ := h
        subst hdb
        rw [step.1] at hr
        rcases List.mem_append.mp hr with hold | hnew
        · exact absurd hold hnotin
        · exact newMemberRows_userId_none _ _ _ r hnew
      · simp only [Prod.mk.injEq] at h
        obtain ⟨_, _, hdb⟩ := h
        subst hdb
        exact absurd hr hnotin
    · rw [if_neg hb] at h
      simp only [Prod.mk.injEq] at h
      obtain ⟨_, _, hdb⟩ := h
      subst hdb
      exact absurd hr hnotin
  · intro db gid uid mems o e db' h r hr hnotin
    rw [AddMembersToGroup] at h
    split at h
    · rename_i rr hloop
      have step := createMembersLoop_ok hloop
      simp only [Prod.mk.injEq] at h
      obtain ⟨_, hdb⟩ := h
      subst hdb
      rw [step.1] at hr
      rcases List.mem_append.mp hr with hold | hnew
      · exact absurd hold hnotin
      · exact newMemberRows_userId_none _ _ _ r hnew
    · simp only [Prod.mk.injEq] at h
      obtain ⟨_, hdb⟩ := h
      subst hdb
      exact absurd hr hnotin
  · intro gid uid ids r h
    have hx : (r.UserId == some uid) = false := by simp [h]
    constructor
    · simp [memberSel, hx]
    · simp [memberRemoveSel, hx]
  · intro db gid uid mems db' hnone h
    have hcur : db.members.filter (memberSel gid uid) = [] := by
      rw [List.filter_eq_nil_iff]
      intro a ha
      have hx : (a.UserId == some uid) = false := by simp [hnone a ha]
      simp [memberSel, hx]
    have hrec : reconcileMembers gid uid [] mems = mems.map (ugmInsertRow gid uid) := by
      unfold reconcileMembers
      simp only [List.map_nil, List.nil_append]
      exact filterMap_insert_all gid uid mems
    rw [UpdateGroupMembers, hcur, hrec, saveMembersLoop_nil_oracle] at h
    simp only [Prod.mk.injEq] at h
    obtain ⟨_, hdb⟩ := h
    subst hdb
    exact (saveMembersAll_inserts gid uid mems db).1

/-- Witness for C8 at concrete runs of all four conjuncts. -/
theorem membersWithoutUserId_spec_witness :
    (⟨some 0, some 0, none, some "m", some "M", some 1⟩ : model.ChatGroupMemberN).UserId = none ∧
    (⟨some 0, some 5, none, some "m", some "M", some 1⟩ : model.ChatGroupMemberN).UserId = none ∧
    (memberSel 1 7 ⟨some 0, some 0, none, some "m", some "M", some 1⟩ = false ∧
      memberRemoveSel 1 7 [0] ⟨some 0, some 0, none, some "m", some "M", some 1⟩ = false) ∧
    (⟨[], [⟨some 0, some 1, some 7, some "m", some "M", some 1⟩], [], 0, 1, 0⟩ : DB).members =
      (⟨[], [], [], 0, 0, 0⟩ : DB).members ++
        ugmNewRows 1 7 (⟨[], [], [], 0, 0, 0⟩ : DB).nextMemberId [⟨0, "m", "M"⟩] :=
  ⟨membersWithoutUserId_spec.1 ⟨[], [], [], 0, 0, 0⟩ 7 "g" [⟨0, "m", "M"⟩] [] 0 none
      ⟨[⟨some 0, some 7, some "g"⟩], [⟨some 0, some 0, none, some "m", some "M", some 1⟩],
        [], 1, 1, 0⟩ rfl
      ⟨some 0, some 0, none, some "m", some "M", some 1⟩ (by decide) (by decide),
   membersWithoutUserId_spec.2.1 ⟨[], [], [], 0, 0, 0⟩ 5 7 [⟨0, "m", "M"⟩] [] none
      ⟨[], [⟨some 0, some 5, none, some "m", some "M", some 1⟩], [], 0, 1, 0⟩ rfl
      ⟨some 0, some 5, none, some "m", some "M", some 1⟩ (by decide) (by decide),
   membersWithoutUserId_spec.2.2.1 1 7 [0]
      ⟨some 0, some 0, none, some "m", some "M", some 1⟩ rfl,
   membersWithoutUserId_spec.2.2.2 ⟨[], [], [], 0, 0, 0⟩ 1 7 [⟨0, "m", "M"⟩]
      ⟨[], [⟨some 0, some 1, some 7, some "m", some "M", some 1⟩], [], 0, 1, 0⟩
      (fun r hr => absurd hr (List.not_mem_nil r)) rfl⟩

/-- C5: stored chat messages round-trip with their consumption metadata:
after a successful AddChatMessage, GetChatMessage on the returned id yields
a message whose Message, Role, TokenConsumed, QuotaConsumed, Pid, MemberId
and Status equal those of the input and whose GroupId and UserId equal the
call's groupID and userID. -/
theorem chatMessage_roundTrip
    (db : DB) (groupID userID : Int) (msg : ChatGroupMessage) (o : List Bool)
    (messageID : Int) (db' : DB)
    (hwf : db.wf)
    (h : AddChatMessage db groupID userID msg o = (messageID, none, db')) :
    ∃ m, GetChatMessage db' groupID userID messageID = .ok m ∧
      m.Message = msg.Message ∧ m.Role = msg.Role ∧
      m.TokenConsumed = msg.TokenConsumed ∧ m.QuotaConsumed = msg.QuotaConsumed ∧
      m.Pid = msg.Pid ∧ m.MemberId = msg.MemberId ∧ m.Status = msg.Status ∧
      m.GroupId = groupID ∧ m.UserId = userID := by
  rw [AddChatMessage] at h
  by_cases hb : (oracleNext o).1
  · rw [if_pos hb] at h
    simp only [Prod.mk.injEq] at h
    obtain ⟨hmid, _, hdb⟩ := h
    subst hmid
    subst hdb
    have hnone : db.messages.find? (chatMessageSel groupID userID db.nextMessageId) = none := by
      rw [List.find?_eq_none]
      intro x hx hpx
      simp only [chatMessageSel, Bool.and_eq_true, beq_iff_eq] at hpx
      have := wf_messages_below hwf x hx db.nextMessageId hpx.2
      omega
    have hget : GetChatMessage
        { db with
          messages := db.messages ++
            [⟨some db.nextMessageId, some groupID, some userID, some msg.Message, some msg.Role,
              some msg.TokenConsumed, some msg.QuotaConsumed, some msg.Pid, some msg.MemberId,
              some msg.Status⟩],
          nextMessageId := db.nextMessageId + 1 } groupID userID db.nextMessageId
        = .ok (model.ChatGroupMessageN.ToChatGroupMessage
            ⟨some db.nextMessageId, some groupID, some userID, some msg.Message, some msg.Role,
              some msg.TokenConsumed, some msg.QuotaConsumed, some msg.Pid, some msg.MemberId,
              some msg.Status⟩) := by
      simp only [GetChatMessage, List.find?_append, hnone]
      simp [chatMessageSel]
    exact ⟨_, hget, rfl, rfl, rfl, rfl, rfl, rfl, rfl, rfl, rfl⟩
  · rw [if_neg hb] at h
    simp at h

/-- Witness for C5 at a concrete run on the empty database. -/
theorem chatMessage_roundTrip_witness :
    DB.wf ⟨[], [], [], 0, 0, 0⟩ ∧
    ∃ m, GetChatMessage
        ⟨[], [], [⟨some 0, some 1, some 7, some "hi", some 2, some 3, some 4, some 5, some 6,
          some 1⟩], 0, 0, 1⟩ 1 7 0 = .ok m ∧
      m.Message = "hi" ∧ m.Role = 2 ∧ m.TokenConsumed = 3 ∧ m.QuotaConsumed = 4 ∧
      m.Pid = 5 ∧ m.MemberId = 6 ∧ m.Status = 1 ∧ m.GroupId = 1 ∧ m.UserId = 7 :=
  ⟨by decide,
   chatMessage_roundTrip ⟨[], [], [], 0, 0, 0⟩ 1 7 ⟨"hi", 2, 3, 4, 5, 6, 1⟩ [] 0
     ⟨[], [], [⟨some 0, some 1, some 7, some "hi", some 2, some 3, some 4, some 5, some 6,
       some 1⟩], 0, 0, 1⟩ (by decide) rfl⟩

/-- C6: membership removal is effective at the read interface: after a
successful RemoveMembersFromGroup, none of the listed Normal-status members
of that group and user appears in the Members returned by GetGroup, while
member rows whose ids were not listed are unaffected. -/
theorem removeMembers_getGroup_spec
    (db : DB) (groupID userID : Int) (memberIDs : List Int) (db' : DB) (g : repo.Group)
    (hwf : db.wf)
    (hrem : RemoveMembersFromGroup db groupID userID memberIDs [] = (none, db'))
    (hget : GetGroup db' groupID userID = .ok g) :
    (∀ r ∈ db.members, ∀ i, r.Id = some i → i ∈ memberIDs →
       r.GroupId = some groupID → r.UserId = some userID →
       r.Status = some ChatGroupMemberStatusNormal →
       ∀ m ∈ g.Members, m.Id ≠ i) ∧
    (∀ r ∈ db.members, (∀ i, r.Id = some i → i ∉ memberIDs) → r ∈ db'.members) := by
  rw [RemoveMembersFromGroup] at hrem
  by_cases hemp : memberIDs.length = 0
  · rw [if_pos hemp] at hrem
    simp only [Prod.mk.injEq] at hrem
    obtain ⟨_, hdb⟩ := hrem
    subst hdb
    have hnil : memberIDs = [] := List.length_eq_zero.mp hemp
    subst hnil
    constructor
    · intro r hr i hid hin
      exact absurd hin (List.not_mem_nil i)
    · intro r hr _
      exact hr
  · rw [if_neg hemp] at hrem
    rw [if_pos (show (oracleNext ([] : List Bool)).1 = true from rfl)] at hrem
    have hdb := congrArg Prod.snd hrem
    simp only at hdb
    subst hdb
    constructor
    · intro r hr i hid hin hgid huid hstat m hm hmi
      rw [GetGroup] at hget
      split at hget
      · cases hget
      · rename_i grp hfind
        injection hget with hg
        subst hg
        rcases List.mem_map.mp hm with ⟨s, hsfil, rfl⟩
        rcases List.mem_filter.mp hsfil with ⟨hsmem, hssel⟩
        rcases List.mem_map.mp hsmem with ⟨t, htmem, hts⟩
        by_cases hpt : memberRemoveSel groupID userID memberIDs t = true
        · rw [if_pos hpt] at hts
          subst hts
          simp [memberOfGroupSel, ChatGroupMemberStatusDeleted,
            ChatGroupMemberStatusNormal] at hssel
        · rw [if_neg hpt] at hts
          subst hts
          simp only [model.ChatGroupMemberN.ToChatGroupMember] at hmi
          cases ht : t.Id with
          | none => exact wf_members_isSome hwf t htmem ht
          | some j =>
            rw [ht] at hmi
            simp only [Option.getD_some] at hmi
            subst hmi
            have hrt : r = t :=
              mem_id_unique hwf.2.1 hr htmem hid ht
            have hprt : memberRemoveSel groupID userID memberIDs r = true := by
              simp [memberRemoveSel, hgid, huid, hstat, hid, hin]
            rw [hrt] at hprt
            exact hpt hprt
    · intro r hr hnot
      refine List.mem_map.mpr ⟨r, hr, ?_⟩
      rw [if_neg]
      intro hsel
      cases hidc : r.Id with
      | none => simp [memberRemoveSel, hidc] at hsel
      | some i =>
        have hni : i ∉ memberIDs := hnot i hidc
        simp [memberRemoveSel, hidc, hni] at hsel

/-- Witness for C6: removing member 1 from a concrete two-member group hides
it from GetGroup and leaves member 2 untouched. -/
theorem removeMembers_getGroup_spec_witness :
    (∀ m ∈ (⟨⟨1, 7, "g"⟩, [⟨2, 1, 7, "b", "B", 1⟩]⟩ : repo.Group).Members, m.Id ≠ 1) ∧
    (⟨some 2, some 1, some 7, some "b", some "B", some 1⟩ : model.ChatGroupMemberN) ∈
      (⟨[⟨some 1, some 7, some "g"⟩],
        [⟨some 1, some 1, some 7, some "a", some "A", some 2⟩,
         ⟨some 2, some 1, some 7, some "b", some "B", some 1⟩], [], 2, 3, 0⟩ : DB).members :=
  ⟨(removeMembers_getGroup_spec
      ⟨[⟨some 1, some 7, some "g"⟩],
        [⟨some 1, some 1, some 7, some "a", some "A", some 1⟩,
         ⟨some 2, some 1, some 7, some "b", some "B", some 1⟩], [], 2, 3, 0⟩
      1 7 [1]
      ⟨[⟨some 1, some 7, some "g"⟩],
        [⟨some 1, some 1, some 7, some "a", some "A", some 2⟩,
         ⟨some 2, some 1, some 7, some "b", some "B", some 1⟩], [], 2, 3, 0⟩
      ⟨⟨1, 7, "g"⟩, [⟨2, 1, 7, "b", "B", 1⟩]⟩
      (by decide) (by decide) rfl).1
      ⟨some 1, some 1, some 7, some "a", some "A", some 1⟩ (by decide) 1 rfl (by decide)
      rfl rfl rfl,
   (removeMembers_getGroup_spec
      ⟨[⟨some 1, some 7, some "g"⟩],
        [⟨some 1, some 1, some 7, some "a", some "A", some 1⟩,
         ⟨some 2, some 1, some 7, some "b", some "B", some 1⟩], [], 2, 3, 0⟩
      1 7 [1]
      ⟨[⟨some 1, some 7, some "g"⟩],
        [⟨some 1, some 1, some 7, some "a", some "A", some 2⟩,
         ⟨some 2, some 1, some 7, some "b", some "B", some 1⟩], [], 2, 3, 0⟩
      ⟨⟨1, 7, "g"⟩, [⟨2, 1, 7, "b", "B", 1⟩]⟩
      (by decide) (by decide) rfl).2
      ⟨some 2, some 1, some 7, some "b", some "B", some 1⟩ (by decide)
      (by intro i hi; cases hi; decide)⟩

/-- C9: group members are only ever soft-deleted: no repository operation
removes a member row — every member row's id survives every call — and
GetGroup returns exactly the group's members whose status is Normal (1);
the delete paths only ever write status Deleted (2) in place. -/
theorem members_soft_delete_invariant :
    (∀ (c : RepoCall) (db : DB) (o : List Bool) (r : model.ChatGroupMemberN),
        r ∈ db.members → ∃ s ∈ (applyCall c db o).members, s.Id = r.Id) ∧
    (∀ (db : DB) (groupID userID : Int) (g : repo.Group),
        GetGroup db groupID userID = .ok g →
        ∀ m, m ∈ g.Members ↔
          ∃ r ∈ db.members, r.GroupId = some groupID ∧
            r.Status = some ChatGroupMemberStatusNormal ∧
            m = r.ToChatGroupMember) := by
  constructor
  · intro c db o r hr
    cases c with
    | createGroup uid name mems =>
      simp only [applyCall, CreateGroup]
      by_cases hb : (oracleNext o).1
      · rw [if_pos hb]
        split
        · rename_i rr hloop
          have step := createMembersLoop_ok hloop
          refine ⟨r, ?_, rfl⟩
          show r ∈ rr.1.members
          rw [step.1]
          exact List.mem_append.mpr (Or.inl hr)
        · exact ⟨r, hr, rfl⟩
      · rw [if_neg hb]
        exact ⟨r, hr, rfl⟩
    | updateGroup gid uid name =>
      simp only [applyCall, UpdateGroup]
      split
      · exact ⟨r, hr, rfl⟩
      · split
        · exact ⟨r, hr, rfl⟩
        · split
          · exact ⟨r, hr, rfl⟩
          · exact ⟨r, hr, rfl⟩
    | updateGroupMembers gid uid mems =>
      simp only [applyCall, UpdateGroupMembers]
      split
      · rename_i rr hloop
        have heq := saveMembersLoop_ok_eq hloop
        rw [heq]
        exact saveMembersAll_id_preserved hr
      · exact ⟨r, hr, rfl⟩
    | addMembersToGroup gid uid mems =>
      simp only [applyCall, AddMembersToGroup]
      split
      · rename_i rr hloop
        have step := createMembersLoop_ok hloop
        refine ⟨r, ?_, rfl⟩
        show r ∈ rr.1.members
        rw [step.1]
        exact List.mem_append.mpr (Or.inl hr)
      · exact ⟨r, hr, rfl⟩
    | removeMembersFromGroup gid uid ids =>
      simp only [applyCall, RemoveMembersFromGroup]
      split
      · exact ⟨r, hr, rfl⟩
      · split
        · refine ⟨if memberRemoveSel gid uid ids r = true then
              { r with Status := some ChatGroupMemberStatusDeleted } else r,
            List.mem_map.mpr ⟨r, hr, rfl⟩, ?_⟩
          split
          · rfl
          · rfl
        · exact ⟨r, hr, rfl⟩
    | getGroup gid uid => exact ⟨r, hr, rfl⟩
    | groups uid lim => exact ⟨r, hr, rfl⟩
    | addChatMessage gid uid msg =>
      simp only [applyCall, AddChatMessage]
      split
      · exact ⟨r, hr, rfl⟩
      · exact ⟨r, hr, rfl⟩
    | getChatMessage gid uid mid => exact ⟨r, hr, rfl⟩
    | getChatMessages gid lim => exact ⟨r, hr, rfl⟩
    | deleteChatMessage gid uid mid =>
      simp only [applyCall, DeleteChatMessage]
      split
      · exact ⟨r, hr, rfl⟩
      · exact ⟨r, hr, rfl⟩
    | updateChatMessage gid uid mid msg =>
      simp only [applyCall, UpdateChatMessage]
      split
      · exact ⟨r, hr, rfl⟩
      · exact ⟨r, hr, rfl⟩
  · intro db gid uid g hget m
    rw [GetGroup] at hget
    split at hget
    · cases hget
    · rename_i grp hfind
      injection hget with hg
      subst hg
      constructor
      · intro hm
        rcases List.mem_map.mp hm with ⟨s, hsfil, rfl⟩
        rcases List.mem_filter.mp hsfil with ⟨hsmem, hssel⟩
        simp only [memberOfGroupSel, Bool.and_eq_true, beq_iff_eq] at hssel
        exact ⟨s, hsmem, hssel.1, hssel.2, rfl⟩
      · rintro ⟨rrow, hrmem, hg1, hg2, rfl⟩
        refine List.mem_map.mpr ⟨rrow, ?_, rfl⟩
        refine List.mem_filter.mpr ⟨hrmem, ?_⟩
        simp [memberOfGroupSel, hg1, hg2]

/-- Witness for C9 at concrete calls: a remove call keeps the removed row's
id in the table, and GetGroup's member list matches the Normal-status rows. -/
theorem members_soft_delete_invariant_witness :
    (∃ s ∈ (applyCall (RepoCall.removeMembersFromGroup 1 7 [1])
        ⟨[⟨some 1, some 7, some "g"⟩],
         [⟨some 1, some 1, some 7, some "a", some "A", some 1⟩,
          ⟨some 2, some 1, some 7, some "b", some "B", some 1⟩], [], 2, 3, 0⟩ []).members,
      s.Id = (⟨some 1, some 1, some 7, some "a", some "A", some 1⟩ :
        model.ChatGroupMemberN).Id) ∧
    ((⟨2, 1, 7, "b", "B", 1⟩ : model.ChatGroupMember) ∈
        (⟨⟨1, 7, "g"⟩, [⟨2, 1, 7, "b", "B", 1⟩]⟩ : repo.Group).Members ↔
      ∃ r ∈ (⟨[⟨some 1, some 7, some "g"⟩],
         [⟨some 1, some 1, some 7, some "a", some "A", some 2⟩,
          ⟨some 2, some 1, some 7, some "b", some "B", some 1⟩], [], 2, 3, 0⟩ : DB).members,
        r.GroupId = some 1 ∧ r.Status = some ChatGroupMemberStatusNormal ∧
        (⟨2, 1, 7, "b", "B", 1⟩ : model.ChatGroupMember) = r.ToChatGroupMember) :=
  ⟨members_soft_delete_invariant.1 (RepoCall.removeMembersFromGroup 1 7 [1])
      ⟨[⟨some 1, some 7, some "g"⟩],
       [⟨some 1, some 1, some 7, some "a", some "A", some 1⟩,
        ⟨some 2, some 1, some 7, some "b", some "B", some 1⟩], [], 2, 3, 0⟩ []
      ⟨some 1, some 1, some 7, some "a", some "A", some 1⟩ (by decide),
   members_soft_delete_invariant.2
      ⟨[⟨some 1, some 7, some "g"⟩],
       [⟨some 1, some 1, some 7, some "a", some "A", some 2⟩,
        ⟨some 2, some 1, some 7, some "b", some "B", some 1⟩], [], 2, 3, 0⟩ 1 7
      ⟨⟨1, 7, "g"⟩, [⟨2, 1, 7, "b", "B", 1⟩]⟩ rfl ⟨2, 1, 7, "b", "B", 1⟩⟩

theorem ugmUpdateRow_Id (mems : List Member) (r : model.ChatGroupMemberN) :
    (ugmUpdateRow mems r).Id = r.Id := by
  unfold ugmUpdateRow
  split
  · rfl
  · rfl

theorem saveMembersAll_hit {db : DB} {L1 L2 : List model.ChatGroupMemberN}
    {u : model.ChatGroupMemberN} {i : Int}
    (hrows : rowsIdBelow db.members db.nextMemberId)
    (hL : rowsIdBelow (L1 ++ u :: L2) db.nextMemberId)
    (h1 : ∀ v ∈ L1, v.Id ≠ some i) (h2 : ∀ v ∈ L2, v.Id ≠ some i)
    (hu : u.Id = some i) (hlt : i < db.nextMemberId)
    {r0 : model.ChatGroupMemberN} (hfind : findMem db.members i = some r0) :
    findMem (saveMembersAll (L1 ++ u :: L2) db).members i = some u := by
  rw [saveMembersAll_append]
  have hL1 : rowsIdBelow L1 db.nextMemberId :=
    fun v hv => hL v (List.mem_append.mpr (Or.inl hv))
  have hs1 : findMem (saveMembersAll L1 db).members i = some r0 := by
    rw [saveMembersAll_findMem_stable hrows hL1 h1 hlt]
    exact hfind
  have hrows1 : rowsIdBelow (saveMembersAll L1 db).members
      (saveMembersAll L1 db).nextMemberId :=
    saveMembersAll_rowsIdBelow hrows hL1
  have hle1 := saveMembersAll_nextMemberId_le L1 db
  rw [saveMembersAll]
  have hstep : (memberSave (saveMembersAll L1 db) u).members =
      (saveMembersAll L1 db).members.map (fun r => if r.Id = u.Id then u else r) := by
    cases hu2 : u.Id with
    | none =>
      rw [hu2] at hu
      cases hu
    | some j => simp [memberSave, hu2]
  have hnext : (memberSave (saveMembersAll L1 db) u).nextMemberId =
      (saveMembersAll L1 db).nextMemberId := by
    cases hu2 : u.Id with
    | none =>
      rw [hu2] at hu
      cases hu
    | some j => simp [memberSave, hu2]
  have hafter : findMem (memberSave (saveMembersAll L1 db) u).members i = some u := by
    rw [hstep]
    exact findMem_map_hit hu hs1
  have hloww : ∀ j, u.Id = some j → j < (saveMembersAll L1 db).nextMemberId := by
    intro j hj
    exact lt_of_lt_of_le
      (hL u (List.mem_append.mpr (Or.inr (List.mem_cons_self _ _))) j hj) hle1
  have hrows2 : rowsIdBelow (memberSave (saveMembersAll L1 db) u).members
      (memberSave (saveMembersAll L1 db) u).nextMemberId :=
    memberSave_rowsIdBelow hrows1 hloww
  have hL2 : rowsIdBelow L2 (memberSave (saveMembersAll L1 db) u).nextMemberId := by
    rw [hnext]
    intro v hv j hj
    exact lt_of_lt_of_le
      (hL v (List.mem_append.mpr (Or.inr (List.mem_cons_of_mem _ hv))) j hj) hle1
  have hlt2 : i < (memberSave (saveMembersAll L1 db) u).nextMemberId := by
    rw [hnext]
    exact lt_of_lt_of_le hlt hle1
  rw [saveMembersAll_findMem_stable hrows2 hL2 h2 hlt2]
  exact hafter

theorem saveMembersAll_insert_mem {db : DB} {L1 L2 : List model.ChatGroupMemberN}
    {m : model.ChatGroupMemberN}
    (hrows : rowsIdBelow db.members db.nextMemberId)
    (hL : rowsIdBelow (L1 ++ m :: L2) db.nextMemberId)
    (hm : m.Id = none) :
    ∃ k, db.nextMemberId ≤ k ∧
      { m with Id := some k } ∈ (saveMembersAll (L1 ++ m :: L2) db).members := by
  rw [saveMembersAll_append]
  have hL1 : rowsIdBelow L1 db.nextMemberId :=
    fun v hv => hL v (List.mem_append.mpr (Or.inl hv))
  have hle1 := saveMembersAll_nextMemberId_le L1 db
  rw [saveMembersAll]
  have hstep : memberSave (saveMembersAll L1 db) m =
      { saveMembersAll L1 db with
        members := (saveMembersAll L1 db).members ++
          [{ m with Id := some (saveMembersAll L1 db).nextMemberId }],
        nextMemberId := (saveMembersAll L1 db).nextMemberId + 1 } := by
    simp [memberSave, hm]
  rw [hstep]
  refine ⟨(saveMembersAll L1 db).nextMemberId, hle1, ?_⟩
  refine saveMembersAll_mem_preserve ?_ ?_
  · exact List.mem_append.mpr (Or.inr (List.mem_singleton.mpr rfl))
  · intro u hu hcon
    have hcon2 : u.Id = some (saveMembersAll L1 db).nextMemberId := hcon
    have hub := hL u (List.mem_append.mpr (Or.inr (List.mem_cons_of_mem _ hu)))
      (saveMembersAll L1 db).nextMemberId hcon2
    omega

theorem nodup_ids_split {c1 c2 : List model.ChatGroupMemberN}
    {r : model.ChatGroupMemberN} {i : Int}
    (hnd : ((c1 ++ r :: c2).filterMap model.ChatGroupMemberN.Id).Nodup)
    (hid : r.Id = some i) :
    (∀ a ∈ c1, a.Id ≠ some i) ∧ (∀ a ∈ c2, a.Id ≠ some i) := by
  rw [List.filterMap_append, List.filterMap_cons, hid] at hnd
  rcases List.nodup_append.mp hnd with ⟨_, hndB, hdisj⟩
  constructor
  · intro a ha hcon
    exact hdisj (List.mem_filterMap.mpr ⟨a, ha, hcon⟩) (List.mem_cons_self i _)
  · intro a ha hcon
    exact (List.nodup_cons.mp hndB).1 (List.mem_filterMap.mpr ⟨a, ha, hcon⟩)

theorem inserts_Id_none (gid uid : Int) (cur : List model.ChatGroupMemberN)
    (mems : List Member) :
    ∀ v ∈ mems.filterMap (fun member =>
      if toMapLookup (fun c => c.Id.getD 0) cur member.ID = none
      then some (ugmInsertRow gid uid member) else none), v.Id = none := by
  intro v hv
  rcases List.mem_filterMap.mp hv with ⟨mm, _, hcond⟩
  split at hcond
  · cases hcond
    rfl
  · cases hcond

/-- C1: within one transaction, UpdateGroupMembers reconciles the group's
current Normal-status members (selected by groupID, userID, status Normal)
against the supplied list, keyed by member id: a current member whose id is
absent from the supplied list ends up stored with status Deleted, one whose
id is present ends up with ModelId and ModelName overwritten by the
supplied values, and each supplied member matching no current member is
inserted as a fresh row with the given groupID, userID and status Normal;
all resulting rows are saved. -/
theorem updateGroupMembers_reconciliation
    (db : DB) (groupID userID : Int) (members : List Member) (db' : DB)
    (hwf : db.wf)
    (hnd : (members.map Member.ID).Nodup)
    (hrun : UpdateGroupMembers db groupID userID members [] = (none, db')) :
    (∀ r ∈ db.members, memberSel groupID userID r = true → ∀ i, r.Id = some i →
       ((∀ mm ∈ members, mm.ID ≠ i) →
          findMem db'.members i =
            some { r with Status := some ChatGroupMemberStatusDeleted }) ∧
       (∀ mm ∈ members, mm.ID = i →
          findMem db'.members i =
            some { r with ModelId := some mm.ModelID, ModelName := some mm.ModelName })) ∧
    (∀ mm ∈ members,
       (∀ r ∈ db.members, memberSel groupID userID r = true → r.Id ≠ some mm.ID) →
       ∃ k, db.nextMemberId ≤ k ∧
         (⟨some k, some groupID, some userID, some mm.ModelID, some mm.ModelName,
           some ChatGroupMemberStatusNormal⟩ : model.ChatGroupMemberN) ∈ db'.members) := by
  rw [UpdateGroupMembers, saveMembersLoop_nil_oracle] at hrun
  simp only [Prod.mk.injEq] at hrun
  obtain ⟨-, hdb⟩ := hrun
  subst hdb
  have hbelow : rowsIdBelow db.members db.nextMemberId := wf_members_below hwf
  have hcurnd : ((db.members.filter (memberSel groupID userID)).filterMap
      model.ChatGroupMemberN.Id).Nodup :=
    List.Nodup.sublist (List.Sublist.filterMap _ (List.filter_sublist db.members)) hwf.2.1
  have hRbelow : rowsIdBelow
      (reconcileMembers groupID userID
        (db.members.filter (memberSel groupID userID)) members) db.nextMemberId := by
    intro u hu j hj
    unfold reconcileMembers at hu
    rcases List.mem_append.mp hu with hupd | hins
    · rcases List.mem_map.mp hupd with ⟨a, ha, rfl⟩
      rw [ugmUpdateRow_Id] at hj
      exact hbelow a (List.mem_filter.mp ha).1 j hj
    · rw [inserts_Id_none groupID userID _ members u hins] at hj
      cases hj
  constructor
  · intro r hr hsel i hid
    have hrcur : r ∈ db.members.filter (memberSel groupID userID) :=
      List.mem_filter.mpr ⟨hr, hsel⟩
    obtain ⟨c1, c2, hcur⟩ := List.append_of_mem hrcur
    have hfm : findMem db.members i = some r := findMem_of_mem_nodup hwf.2.1 hr hid
    have hsplitids := nodup_ids_split (hcur ▸ hcurnd) hid
    have hgd : r.Id.getD 0 = i := by rw [hid]; rfl
    have hR : reconcileMembers groupID userID (c1 ++ r :: c2) members =
        c1.map (ugmUpdateRow members) ++ ugmUpdateRow members r ::
          (c2.map (ugmUpdateRow members) ++
            members.filterMap (fun member =>
              if toMapLookup (fun c => c.Id.getD 0) (c1 ++ r :: c2) member.ID = none
              then some (ugmInsertRow groupID userID member) else none)) := by
      unfold reconcileMembers
      rw [List.map_append, List.map_cons, List.append_assoc, List.cons_append]
    have hLall : rowsIdBelow
        (c1.map (ugmUpdateRow members) ++ ugmUpdateRow members r ::
          (c2.map (ugmUpdateRow members) ++
            members.filterMap (fun member =>
              if toMapLookup (fun c => c.Id.getD 0) (c1 ++ r :: c2) member.ID = none
              then some (ugmInsertRow groupID userID member) else none)))
        db.nextMemberId := by
      rw [← hR, ← hcur]
      exact hRbelow
    have h1 : ∀ v ∈ c1.map (ugmUpdateRow members), v.Id ≠ some i := by
      intro v hv
      rcases List.mem_map.mp hv with ⟨a, ha, rfl⟩
      rw [ugmUpdateRow_Id]
      exact hsplitids.1 a ha
    have h2 : ∀ v ∈ c2.map (ugmUpdateRow members) ++
        members.filterMap (fun member =>
          if toMapLookup (fun c => c.Id.getD 0) (c1 ++ r :: c2) member.ID = none
          then some (ugmInsertRow groupID userID member) else none), v.Id ≠ some i := by
      intro v hv
      rcases List.mem_append.mp hv with hvm | hvi
      · rcases List.mem_map.mp hvm with ⟨a, ha, rfl⟩
        rw [ugmUpdateRow_Id]
        exact hsplitids.2 a ha
      · rw [inserts_Id_none groupID userID _ members v hvi]
        exact fun hcon => Option.noConfusion hcon
    have huid : (ugmUpdateRow members r).Id = some i := by
      rw [ugmUpdateRow_Id]
      exact hid
    have hlt : i < db.nextMemberId := hbelow r hr i hid
    constructor
    · intro hnomm
      have hlk : toMapLookup (fun m => m.ID) members i = none :=
        toMapLookup_eq_none.mpr hnomm
      have hu : ugmUpdateRow members r =
          { r with Status := some ChatGroupMemberStatusDeleted } := by
        unfold ugmUpdateRow
        rw [hgd, hlk]
      rw [hcur, hR, ← hu]
      exact saveMembersAll_hit hbelow hLall h1 h2 huid hlt hfm
    · intro mm hmm hmmid
      have hlk : toMapLookup (fun m => m.ID) members i = some mm :=
        toMapLookup_of_nodup hnd hmm hmmid
      have hu : ugmUpdateRow members r =
          { r with ModelId := some mm.ModelID, ModelName := some mm.ModelName } := by
        unfold ugmUpdateRow
        rw [hgd, hlk]
      rw [hcur, hR, ← hu]
      exact saveMembersAll_hit hbelow hLall h1 h2 huid hlt hfm
  · intro mm hmm hnone
    have hcond : toMapLookup (fun c => c.Id.getD 0)
        (db.members.filter (memberSel groupID userID)) mm.ID = none := by
      rw [toMapLookup_eq_none]
      intro c hc hcon
      have hcmem := List.mem_filter.mp hc
      cases hcid : c.Id with
      | none => exact wf_members_isSome hwf c hcmem.1 hcid
      | some j =>
        rw [hcid] at hcon
        simp only [Option.getD_some] at hcon
        subst hcon
        exact hnone c hcmem.1 hcmem.2 hcid
    have hmem : ugmInsertRow groupID userID mm ∈
        members.filterMap (fun member =>
          if toMapLookup (fun c => c.Id.getD 0)
              (db.members.filter (memberSel groupID userID)) member.ID = none
          then some (ugmInsertRow groupID userID member) else none) :=
      List.mem_filterMap.mpr ⟨mm, hmm, by rw [if_pos hcond]⟩
    obtain ⟨I1, I2, hIsplit⟩ := List.append_of_mem hmem
    have hR2 : reconcileMembers groupID userID
        (db.members.filter (memberSel groupID userID)) members =
        ((db.members.filter (memberSel groupID userID)).map (ugmUpdateRow members) ++ I1) ++
          ugmInsertRow groupID userID mm :: I2 := by
      unfold reconcileMembers
      rw [hIsplit]
      rw [List.append_assoc]
    rw [hR2]
    obtain ⟨k, hk1, hk2⟩ :=
      saveMembersAll_insert_mem hbelow (by rw [← hR2]; exact hRbelow) rfl
    exact ⟨k, hk1, hk2⟩

/-- Witness for C1 at a concrete run: member 1 is soft-deleted, member 2 has
its model fields overwritten, and the new member is inserted fresh. -/
theorem updateGroupMembers_reconciliation_witness :
    findMem (⟨[], [⟨some 1, some 10, some 7, some "a", some "A", some 2⟩,
        ⟨some 2, some 10, some 7, some "b2", some "B2", some 1⟩,
        ⟨some 3, some 10, some 7, some "c", some "C", some 1⟩], [], 0, 4, 0⟩ : DB).members 1 =
      some ⟨some 1, some 10, some 7, some "a", some "A", some 2⟩ ∧
    findMem (⟨[], [⟨some 1, some 10, some 7, some "a", some "A", some 2⟩,
        ⟨some 2, some 10, some 7, some "b2", some "B2", some 1⟩,
        ⟨some 3, some 10, some 7, some "c", some "C", some 1⟩], [], 0, 4, 0⟩ : DB).members 2 =
      some ⟨some 2, some 10, some 7, some "b2", some "B2", some 1⟩ ∧
    ∃ k, (3 : Int) ≤ k ∧
      (⟨some k, some 10, some 7, some "c", some "C", some 1⟩ : model.ChatGroupMemberN) ∈
        (⟨[], [⟨some 1, some 10, some 7, some "a", some "A", some 2⟩,
          ⟨some 2, some 10, some 7, some "b2", some "B2", some 1⟩,
          ⟨some 3, some 10, some 7, some "c", some "C", some 1⟩], [], 0, 4, 0⟩ : DB).members :=
  ⟨((updateGroupMembers_reconciliation
      ⟨[], [⟨some 1, some 10, some 7, some "a", some "A", some 1⟩,
        ⟨some 2, some 10, some 7, some "b", some "B", some 1⟩], [], 0, 3, 0⟩ 10 7
      [⟨2, "b2", "B2"⟩, ⟨5, "c", "C"⟩]
      ⟨[], [⟨some 1, some 10, some 7, some "a", some "A", some 2⟩,
        ⟨some 2, some 10, some 7, some "b2", some "B2", some 1⟩,
        ⟨some 3, some 10, some 7, some "c", some "C", some 1⟩], [], 0, 4, 0⟩
      (by decide) (by decide) rfl).1
      ⟨some 1, some 10, some 7, some "a", some "A", some 1⟩ (by decide) (by decide) 1 rfl).1
      (by decide),
   ((updateGroupMembers_reconciliation
      ⟨[], [⟨some 1, some 10, some 7, some "a", some "A", some 1⟩,
        ⟨some 2, some 10, some 7, some "b", some "B", some 1⟩], [], 0, 3, 0⟩ 10 7
      [⟨2, "b2", "B2"⟩, ⟨5, "c", "C"⟩]
      ⟨[], [⟨some 1, some 10, some 7, some "a", some "A", some 2⟩,
        ⟨some 2, some 10, some 7, some "b2", some "B2", some 1⟩,
        ⟨some 3, some 10, some 7, some "c", some "C", some 1⟩], [], 0, 4, 0⟩
      (by decide) (by decide) rfl).1
      ⟨some 2, some 10, some 7, some "b", some "B", some 1⟩ (by decide) (by decide) 2 rfl).2
      ⟨2, "b2", "B2"⟩ (by decide) rfl,
   (updateGroupMembers_reconciliation
      ⟨[], [⟨some 1, some 10, some 7, some "a", some "A", some 1⟩,
        ⟨some 2, some 10, some 7, some "b", some "B", some 1⟩], [], 0, 3, 0⟩ 10 7
      [⟨2, "b2", "B2"⟩, ⟨5, "c", "C"⟩]
      ⟨[], [⟨some 1, some 10, some 7, some "a", some "A", some 2⟩,
        ⟨some 2, some 10, some 7, some "b2", some "B2", some 1⟩,
        ⟨some 3, some 10, some 7, some "c", some "C", some 1⟩], [], 0, 4, 0⟩
      (by decide) (by decide) rfl).2
      ⟨5, "c", "C"⟩ (by decide) (by decide)⟩
